import Mathlib

/-!
Shallow embedding of the chaos-game point-generation core (`chaosgame.py`)
and verification of the claims made by its specification.

Modelling conventions:
* Python floats are modelled as rationals (`ℚ`); Python unbounded ints as `ℕ`/`ℤ`.
* Python operations that raise (`ValueError` from `randint` on an empty range,
  `TypeError` from indexing a list with a non-integer, `KeyError` from a dict
  lookup) are modelled as `Option` with `none` for the raised exception.
* `cos`/`sin` are transcendental, so a `Transformation` carries the values
  `rotCos = cos(rotation)` and `rotSin = sin(rotation)` directly: the source
  stores the angle `rotation` and uses it only through `cos(rotation)` and
  `sin(rotation)` inside `Transformation.transform` (chaosgame.py lines 26-27).
* The polygon vertices are placed on the unit circle via `cos`/`sin`
  (chaosgame.py line 59); no claim depends on the trigonometric values, only on
  the length of the vertex list and on which index is looked up, so configurations
  carry the vertex list as data.
* Randomness is an explicit stream of draws: each generation step consumes one
  `ℕ` draw (feeding `randint`) and one `ℚ` draw (feeding `random()`), which
  fixes "the same random draw order" across batch splits.
-/

/-- Function `lcyc(N, n, k)` from chaosgame.py lines 13-14:
`((n >> (N-k)) | (n << k)) & ((1 << N) - 1)`. -/
def lcyc (N n k : ℕ) : ℕ :=
  ((n >>> (N - k)) ||| (n <<< k)) &&& ((1 <<< N) - 1)

/-- Python slice `l[-k:]` (used as `self.verts[-self.hist_len:]`,
chaosgame.py line 112): the last `k` elements for `k ≥ 1`, and the whole
list for `k = 0` (since `l[-0:] = l[0:] = l`). -/
def pyLastSlice {α : Type} (l : List α) (k : ℕ) : List α :=
  if k = 0 then l else l.drop (l.length - k)

/-- Python negative index `l[-k]` for `k ≥ 1` (used as `self.verts[-1]`,
`self.verts[-2]`); `none` models the `IndexError` on a too-short list. -/
def pyIdxNeg {α : Type} (l : List α) (k : ℕ) : Option α :=
  l.reverse.get? (k - 1)

/-- Mask `sum(2**i for i in excluded)` from chaosgame.py lines 107 and 124
(the `if len(excluded) > 0 else 0` guard of line 124 is redundant since the
empty sum is 0). -/
def exclusionMask (excluded : List ℕ) : ℕ :=
  (excluded.map fun i => 2 ^ i).sum

/-- Python `random.randint(0, hi)` driven by a draw `d`: a value in
`[0, hi]` when `hi ≥ 0` (the draw is reduced mod the range size), and
`none` (`ValueError: empty range`) when `hi < 0`. -/
def randint0 (hi : ℤ) (d : ℕ) : Option ℕ :=
  if hi < 0 then none else some (d % (hi.toNat + 1))

/-- Class `Transformation` (chaosgame.py lines 16-20). `rotCos`/`rotSin`
stand for `cos(self.rotation)`/`sin(self.rotation)`, the only uses of the
stored angle. -/
structure Transformation where
  scale : ℚ
  rotCos : ℚ
  rotSin : ℚ
  prob : ℚ
deriving DecidableEq

/-- Method `Transformation.transform(self, p1, p2)` (chaosgame.py lines 22-31):
translate `p2` into `p1`-relative coordinates, scale, rotate, translate back. -/
def Transformation.transform (t : Transformation) (p1 p2 : ℚ × ℚ) : ℚ × ℚ :=
  let a := (p2.1 - p1.1, p2.2 - p1.2)
  let b := (t.scale * a.1, t.scale * a.2)
  let c := (b.1 * t.rotCos - b.2 * t.rotSin, b.1 * t.rotSin + b.2 * t.rotCos)
  (c.1 + p1.1, c.2 + p1.2)

/-- Method `ChaosGame.choose_transform` (chaosgame.py lines 64-69): walk the
transform list subtracting probabilities from the draw `p`; return the first
transform whose `prob` exceeds the remaining `p`. When the loop finishes
without returning, the Python function implicitly returns `None`. -/
def choose_transform : List Transformation → ℚ → Option Transformation
  | [], _ => none
  | t :: ts, p => if p < t.prob then some t else choose_transform ts (p - t.prob)

/-- The list `verts_avail` of chaosgame.py lines 115 and 129: indices
`i < N` whose bit is not set in the mask `exc`. -/
def availList (N exc : ℕ) : List ℕ :=
  (List.range N).filter fun i => exc &&& (1 <<< i) == 0

/-- Selection `verts_avail[randint(0, len(verts_avail)-1)]` (chaosgame.py lines 115-117
and 129-130): `none` models the `ValueError` raised by `randint(0, -1)` when
no vertex is available. -/
def maskedChoose (N exc d : ℕ) : Option ℕ :=
  (randint0 ((availList N exc).length - 1) d).bind fun j => (availList N exc).get? j

/-- The accumulated exclusion mask `exc` of `ChaosGameHistExc.choose_vertex`
(chaosgame.py lines 111-113): one `|=` per element of `verts[-hist_len:]`,
each rotating `excluded` by `verts[-1]`. `verts` is always the length-3
history list, so `getLastD 0` never takes its default in reachable states. -/
def histExcMask (N excluded hist_len : ℕ) (verts : List ℕ) : ℕ :=
  (pyLastSlice verts hist_len).foldl (fun exc _ => exc ||| lcyc N excluded (verts.getLastD 0)) 0

/-- Method `ChaosGameHistExc.choose_vertex` (chaosgame.py lines 110-117). -/
def histExcChooseVertex (N excluded hist_len : ℕ) (verts : List ℕ) (d : ℕ) : Option ℕ :=
  maskedChoose N (histExcMask N excluded hist_len verts) d

/-- Method `ChaosGameHistExc2.choose_vertex` (chaosgame.py lines 126-132): apply the
rotated exclusion only when the two most recent history entries coincide,
otherwise draw uniformly. -/
def histExc2ChooseVertex (N excluded : ℕ) (verts : List ℕ) (d : ℕ) : Option ℕ :=
  if pyIdxNeg verts 1 = pyIdxNeg verts 2 then
    maskedChoose N (lcyc N excluded (verts.getLastD 0)) d
  else
    randint0 ((N : ℤ) - 1) d

/-- A Python runtime value as passed to `choose_transform`: the base class
receives (and ignores) the coordinate pair of the vertex; an integer is what list
indexing would require. -/
inductive PyVal where
  | int : ℕ → PyVal
  | point : ℚ × ℚ → PyVal

/-- Python list indexing `self.transformations[vert]`
(chaosgame.py line 140): succeeds for an in-range integer index; indexing
with a coordinate pair raises `TypeError` (modelled `none`). -/
def pyListGet (ts : List Transformation) : PyVal → Option Transformation
  | .int n => ts.get? n
  | .point _ => none

/-- Which of the four classes the session was constructed from. The
history-aware variants carry `self.excluded` (already a bitmask, per
`exclusionMask`) and `self.hist_len`. -/
inductive Variant where
  | base : Variant
  | histExc : ℕ → ℕ → Variant
  | histExc2 : ℕ → Variant
  | targetTransform : Variant

/-- Dispatch of `self.choose_vertex()` (chaosgame.py line 81) to the
override of each class; the base class and `ChaosGameTargetTransform` use
`randint(0, self.num_targets-1)` (line 72). -/
def chooseVertexOf : Variant → ℕ → List ℕ → ℕ → Option ℕ
  | .base, N, _, d => randint0 ((N : ℤ) - 1) d
  | .targetTransform, N, _, d => randint0 ((N : ℤ) - 1) d
  | .histExc e hl, N, verts, d => histExcChooseVertex N e hl verts d
  | .histExc2 e, N, verts, d => histExc2ChooseVertex N e verts d

/-- Dispatch of `self.choose_transform(last_vert)` (chaosgame.py line 83).
The call site passes `last_vert = self.vertices[self.verts[-1]]` — the
COORDINATES of the vertex. The base weighted chooser ignores its `*args` and
consumes the `random()` draw; `ChaosGameTargetTransform.choose_transform`
indexes `self.transformations` with the passed value. -/
def chooseTransformOf : Variant → List Transformation → ℚ × ℚ → ℚ → Option Transformation
  | .targetTransform, ts, lastVert, _ => pyListGet ts (PyVal.point lastVert)
  | _, ts, _, p => choose_transform ts p

/-- Normalization `(point+1)/2` and the four-corner blend of chaosgame.py
lines 86-92, with `c j i` the channel `i` of `self.coloring[j]`. -/
def colorOf (c : Fin 4 → Fin 3 → ℚ) (p : ℚ × ℚ) (i : Fin 3) : ℚ :=
  let x := (p.1 + 1) / 2
  let y := (p.2 + 1) / 2
  ((c 0 i * (1 - y) + c 1 i * y) * x + (c 2 i * (1 - y) + c 3 i * y) * (1 - x)) / 256

/-- The mutable per-session sequences: `self.points`, `self.colors`,
`self.verts`. -/
structure GameState where
  points : List (ℚ × ℚ)
  colors : List (Fin 3 → ℚ)
  verts : List ℕ

/-- The configuration fixed at construction: class, `self.num_targets`,
`self.transformations`, `self.coloring`, `self.vertices`. -/
structure Config where
  variant : Variant
  num_targets : ℕ
  transformations : List Transformation
  coloring : Fin 4 → Fin 3 → ℚ
  vertices : List (ℚ × ℚ)

/-- One iteration of the loop of chaosgame.py lines 80-84:
`self.verts = self.verts[1:] + [self.choose_vertex()]`;
`last_vert = self.vertices[self.verts[-1]]`;
`trans = self.choose_transform(last_vert)`;
`self.points.append(trans.transform(self.points[-1], last_vert))`.
`none` models any exception raised inside the step. `self.points` is never
empty (it starts as `[(0,0)]` and is truncated to `[-1:]`), so `getLastD`
never takes its default in reachable states. -/
def step (cfg : Config) (st : GameState) (dv : ℕ) (dt : ℚ) : Option GameState :=
  (chooseVertexOf cfg.variant cfg.num_targets st.verts dv).bind fun v =>
    (cfg.vertices.get? v).bind fun lastVert =>
      (chooseTransformOf cfg.variant cfg.transformations lastVert dt).map fun t =>
        { points := st.points ++ [t.transform (st.points.getLastD (0, 0)) lastVert],
          colors := st.colors,
          verts := st.verts.tail ++ [v] }

/-- Loop `for _ in range(n)` around `step`, threading the draw stream; `none`
when a step raises (or when the modelled stream is exhausted). -/
def runSteps (cfg : Config) : ℕ → GameState → List (ℕ × ℚ) → Option (GameState × List (ℕ × ℚ))
  | 0, st, ds => some (st, ds)
  | _ + 1, _, [] => none
  | n + 1, st, (dv, dt) :: ds =>
    match step cfg st dv dt with
    | none => none
    | some st1 => runSteps cfg n st1 ds

/-- Method `ChaosGame.generate_points(self, n)` (chaosgame.py lines 74-95, the
rendering calls excluded): reset `self.points` to `self.points[-1:]`,
`self.colors` to `[]` and `self.verts` to `[0, 0, 0]`; run `n` steps; then
recompute `self.colors` for every element of the truncated `self.points`. -/
def generate_points (cfg : Config) (st : GameState) (n : ℕ) (ds : List (ℕ × ℚ)) :
    Option (GameState × List (ℕ × ℚ)) :=
  match runSteps cfg n { points := pyLastSlice st.points 1, colors := [], verts := [0, 0, 0] } ds with
  | none => none
  | some (st1, rest) => some ({ st1 with colors := st1.points.map (colorOf cfg.coloring) }, rest)

/-- The `quality` preset dict of chaosgame.py lines 45-50; `none` models the
`KeyError` on an unknown preset name. -/
def pointSizeOf (quality : String) : Option ℚ :=
  if quality = "rough" then some 1
  else if quality = "low" then some (1 / 2)
  else if quality = "medium" then some (1 / 5)
  else if quality = "fine" then some (1 / 20)
  else none

/-- A constructed session: `self.point_size` plus the configuration and the
initial mutable state. -/
structure Session where
  point_size : ℚ
  cfg : Config
  state : GameState

/-- Constructor `ChaosGame.__init__` (chaosgame.py lines 35-62, the plotting calls
excluded): look up the quality preset, store the configuration, build the
vertex list (`vtx i` standing for the unit-circle coordinates of line 59),
and initialise `self.points = [(0, 0)]`, `self.colors = []`. The source
performs no validation of the transformation weights, of `num_targets`, or
of the exclusion mask: the only raising operation is the preset lookup. -/
def mkChaosGame (quality : String) (num_targets : ℕ) (transformations : List Transformation)
    (coloring : Fin 4 → Fin 3 → ℚ) (vtx : ℕ → ℚ × ℚ) (variant : Variant) : Option Session :=
  match pointSizeOf quality with
  | none => none
  | some sz =>
    some ⟨sz,
      ⟨variant, num_targets, transformations, coloring, (List.range num_targets).map vtx⟩,
      ⟨[(0, 0)], [], []⟩⟩

/-- The example corner coloring of chaosgame.py line 43/150:
`[(255,0,0), (0,255,0), (0,0,255), (255,255,0)]`. -/
def cornersEx : Fin 4 → Fin 3 → ℚ :=
  ![![255, 0, 0], ![0, 255, 0], ![0, 0, 255], ![255, 255, 0]]

/-- A transform with `scale=1/2`, `rotation=0` (so `cos=1`, `sin=0`),
`prob=1`. -/
def tEx : Transformation := ⟨1 / 2, 1, 0, 1⟩

/-- Placeholder vertex coordinates (the claims never depend on the
trigonometric values of line 59). -/
def vtxEx : ℕ → ℚ × ℚ := fun _ => (1, 0)

/-- A one-vertex base-class configuration used for concrete evaluations. -/
def cfgC1 : Config := ⟨.base, 1, [tEx], cornersEx, [(1, 0)]⟩

/-- Two consecutive `generate_points` calls on the same session, threading
the shared draw stream, returning the final session state. -/
def genTwice (cfg : Config) (st : GameState) (m n : ℕ) (ds : List (ℕ × ℚ)) : Option GameState :=
  match generate_points cfg st m ds with
  | none => none
  | some (st1, ds1) =>
    match generate_points cfg st1 n ds1 with
    | none => none
    | some (st2, _) => some st2

/-- The `ChaosGameTargetTransform` configuration of the C3 scenario:
`num_targets = 6` and six transformations (the VertexIndexed
precondition of the spec, `len(transforms) == num_targets`). -/
def cfgC3 : Config :=
  ⟨.targetTransform, 6, List.replicate 6 tEx, cornersEx, List.replicate 6 (1, 0)⟩

/-- Every transform returned by the weighted walk is an element of the
transform list. -/
theorem choose_transform_mem : ∀ (ts : List Transformation) (p : ℚ) (t : Transformation),
    choose_transform ts p = some t → t ∈ ts := by
  intro ts
  induction ts with
  | nil => intro p t h; exact absurd h (by simp [choose_transform])
  | cons a l ih =>
    intro p t h
    by_cases hp : p < a.prob
    · simp only [choose_transform, if_pos hp, Option.some.injEq] at h
      subst h
      exact List.mem_cons_self a l
    · simp only [choose_transform, if_neg hp] at h
      exact List.mem_cons_of_mem a (ih (p - a.prob) t h)

/-- The weighted walk returns `none` exactly when the draw is at least the
total weight (for nonnegative weights and a nonnegative draw). -/
theorem choose_transform_eq_none : ∀ (ts : List Transformation) (p : ℚ), 0 ≤ p →
    (∀ t ∈ ts, 0 ≤ t.prob) →
    (choose_transform ts p = none ↔ (ts.map Transformation.prob).sum ≤ p) := by
  intro ts
  induction ts with
  | nil => intro p hp _; simpa [choose_transform] using hp
  | cons a l ih =>
    intro p hp hnn
    have hs : 0 ≤ (l.map Transformation.prob).sum := by
      apply List.sum_nonneg
      intro x hx
      obtain ⟨t, ht, rfl⟩ := List.mem_map.1 hx
      exact hnn t (List.mem_cons_of_mem a ht)
    by_cases hlt : p < a.prob
    · simp only [choose_transform, if_pos hlt, List.map_cons, List.sum_cons]
      constructor
      · intro h; simp at h
      · intro h; exfalso; linarith
    · simp only [choose_transform, if_neg hlt, List.map_cons, List.sum_cons]
      rw [ih (p - a.prob) (by linarith [not_lt.1 hlt])
        (fun t ht => hnn t (List.mem_cons_of_mem a ht))]
      constructor <;> intro h <;> linarith

/-- C2 (counterexample): with weights summing to 1/2 and draw `p = 9/10`
(so `p` is never below a remaining weight), `choose_transform` returns
`none` — not the last transform as the claim states. -/
theorem c2_no_fallback_counterexample :
    choose_transform [⟨1 / 2, 1, 0, 1 / 4⟩, ⟨1 / 2, 1, 0, 1 / 4⟩] (9 / 10) = none := by
  simp only [choose_transform]
  norm_num

/-- C2 (amended): for a nonnegative draw `p` and nonnegative weights, the
weighted walk returns the first transform whose weight exceeds the remaining
`p` — some member of the list — whenever `p` is below the total weight; but
when the weights sum to less than the value of the draw (the floating-shortfall
case), it returns no transform (`None`), with no last-transform fallback. -/
theorem c2_choose_transform_amended (ts : List Transformation) (p : ℚ) (hp : 0 ≤ p)
    (hnn : ∀ t ∈ ts, 0 ≤ t.prob) :
    (p < (ts.map Transformation.prob).sum →
      ∃ t, choose_transform ts p = some t ∧ t ∈ ts) ∧
    ((ts.map Transformation.prob).sum ≤ p → choose_transform ts p = none) := by
  constructor
  · intro hlt
    rcases h : choose_transform ts p with _ | t
    · rw [choose_transform_eq_none ts p hp hnn] at h
      exfalso; linarith
    · exact ⟨t, rfl, choose_transform_mem ts p t h⟩
  · intro hge
    exact (choose_transform_eq_none ts p hp hnn).2 hge

/-- C2 (witness): a concrete instance of the amended theorem. -/
theorem c2_choose_transform_witness :
    ∃ t, choose_transform [tEx] 0 = some t ∧ t ∈ [tEx] :=
  (c2_choose_transform_amended [tEx] 0 le_rfl
    (by intro t ht; simp at ht; subst ht; norm_num [tEx])).1
    (by norm_num [tEx])

/-- C3: in `ChaosGameTargetTransform`, `generate_points` passes the chosen
COORDINATES of the vertex (`self.vertices[self.verts[-1]]`, line 82) to
`choose_transform`, whose body indexes `self.transformations` with that
coordinate pair (line 140) — a `TypeError` in Python. Evaluating the first
generation step of a well-configured session (6 targets, 6 transformations)
therefore crashes instead of returning `transformations[v]`. -/
theorem c3_target_transform_crashes :
    generate_points cfgC3 ⟨[(0, 0)], [], []⟩ 1 [(0, 0)] = none := rfl

/-- C5 (counterexample): constructing a session whose transformation weights
sum to 1/2 succeeds — no `ConfigurationError` is raised, contradicting the
claim that such a construction fails eagerly. -/
theorem c5_no_weight_validation_counterexample :
    (mkChaosGame "rough" 6 [⟨1 / 2, 1, 0, 1 / 2⟩] cornersEx vtxEx .base).isSome = true := rfl

/-- C5 (amended): session construction performs no validation of the
transform weights at all — for any weights whatsoever (in particular summing
to 0.999999 or to 0.5) construction succeeds; no configuration error exists
at construction time. -/
theorem c5_construction_amended :
    (∀ (N : ℕ) (ts : List Transformation) (c : Fin 4 → Fin 3 → ℚ) (vtx : ℕ → ℚ × ℚ)
        (var : Variant), (mkChaosGame "rough" N ts c vtx var).isSome = true) ∧
    (mkChaosGame "rough" 6 [⟨1 / 2, 1, 0, 999999 / 1000000⟩] cornersEx vtxEx .base).isSome
      = true ∧
    (mkChaosGame "rough" 6 [⟨1 / 2, 1, 0, 1 / 2⟩] cornersEx vtxEx .base).isSome = true :=
  ⟨fun _ _ _ _ _ => rfl, rfl, rfl⟩

/-- C7: `lcyc N n k` is a circular left-rotation of the `N`-bit word `n` by
`k` positions: bit `(i + k) % N` of the result equals bit `i` of `n` for
every `i < N`, and the result is again an `N`-bit word. -/
theorem c7_lcyc_rotation (N n k i : ℕ) (hN : 1 ≤ N) (hn : n < 2 ^ N) (hk : k ≤ N)
    (hi : i < N) :
    (lcyc N n k).testBit ((i + k) % N) = n.testBit i ∧ lcyc N n k < 2 ^ N := by
  constructor
  · unfold lcyc
    rcases Nat.lt_or_ge (i + k) N with hik | hik
    · have hj : (i + k) % N = i + k := Nat.mod_eq_of_lt hik
      rw [hj, Nat.testBit_and, Nat.testBit_or, Nat.testBit_shiftRight, Nat.testBit_shiftLeft,
        Nat.one_shiftLeft, Nat.testBit_two_pow_sub_one]
      have h1 : N - k + (i + k) = N + i := by omega
      rw [h1]
      have h2 : n.testBit (N + i) = false :=
        Nat.testBit_lt_two_pow
          (lt_of_lt_of_le hn (Nat.pow_le_pow_right (by norm_num) (by omega)))
      have h3 : i + k - k = i := by omega
      simp [h2, h3, hik, Nat.le_add_left]
    · have hik2 : i + k - N < N := by omega
      have hj : (i + k) % N = i + k - N := by
        conv_lhs => rw [show i + k = (i + k - N) + N from by omega]
        rw [Nat.add_mod_right, Nat.mod_eq_of_lt hik2]
      rw [hj, Nat.testBit_and, Nat.testBit_or, Nat.testBit_shiftRight, Nat.testBit_shiftLeft,
        Nat.one_shiftLeft, Nat.testBit_two_pow_sub_one]
      have h1 : N - k + (i + k - N) = i := by omega
      rw [h1]
      have h2 : ¬ k ≤ i + k - N := by omega
      simp [h2, hik2]
  · unfold lcyc
    rw [Nat.one_shiftLeft]
    exact Nat.and_lt_two_pow _ (by have := Nat.two_pow_pos N; omega)

/-- C7 (witness): rotation of the 6-bit word 5 by 2 positions, checked at
bit 1 of the input. -/
theorem c7_lcyc_rotation_witness :
    (lcyc 6 5 2).testBit ((1 + 2) % 6) = (5 : ℕ).testBit 1 ∧ lcyc 6 5 2 < 2 ^ 6 :=
  c7_lcyc_rotation 6 5 2 1 (by decide) (by decide) (by decide) (by decide)

/-- C9: the color mapper normalizes `(px, py)` to `((px+1)/2, (py+1)/2)` and
blends the four corner colors with the exact weighting of the claim; in
particular for the point `(0, 0)` with the example corners the red channel is
`((255·(1/2) + 0·(1/2))·(1/2) + (0·(1/2) + 255·(1/2))·(1/2))/256 = 127.5/256
= 255/512`. -/
theorem c9_color_blend :
    (∀ (c : Fin 4 → Fin 3 → ℚ) (px py : ℚ) (i : Fin 3),
      colorOf c (px, py) i =
        ((c 0 i * (1 - (py + 1) / 2) + c 1 i * ((py + 1) / 2)) * ((px + 1) / 2) +
          (c 2 i * (1 - (py + 1) / 2) + c 3 i * ((py + 1) / 2)) * (1 - (px + 1) / 2)) / 256) ∧
    colorOf cornersEx (0, 0) 0 =
      ((255 * (1 - 1 / 2) + 0 * (1 / 2)) * (1 / 2) +
        (0 * (1 - 1 / 2) + 255 * (1 / 2)) * (1 - 1 / 2)) / 256 ∧
    colorOf cornersEx (0, 0) 0 = 255 / 512 := by
  refine ⟨fun c px py i => rfl, ?_, ?_⟩ <;> norm_num [colorOf, cornersEx]

/-- Folding `· ||| x` over any non-empty list collapses to a single `|||`. -/
theorem foldl_or_const {α : Type} (x : ℕ) :
    ∀ (l : List α) (a : ℕ), l ≠ [] → l.foldl (fun acc _ => acc ||| x) a = a ||| x := by
  intro l
  induction l with
  | nil => intro a h; exact absurd rfl h
  | cons b t ih =>
    intro a _
    cases t with
    | nil => rfl
    | cons c t2 =>
      show (c :: t2).foldl (fun acc _ => acc ||| x) (a ||| x) = a ||| x
      rw [ih (a ||| x) (by simp), Nat.or_assoc, Nat.or_self]

/-- The slice `verts[-hist_len:]` is non-empty whenever the history is. -/
theorem pyLastSlice_ne_nil {α : Type} (l : List α) (k : ℕ) (h : l ≠ []) :
    pyLastSlice l k ≠ [] := by
  unfold pyLastSlice
  by_cases hk : k = 0
  · simpa [hk] using h
  · simp only [hk, if_false]
    intro hcon
    rw [List.drop_eq_nil_iff] at hcon
    have := List.length_pos.2 h
    omega

/-- The combined mask of `ChaosGameHistExc.choose_vertex` collapses to one
rotation by the most recent history entry, whatever `hist_len` is. -/
theorem histExcMask_eq (N excl hl : ℕ) (verts : List ℕ) (hne : verts ≠ []) :
    histExcMask N excl hl verts = lcyc N excl (verts.getLastD 0) := by
  unfold histExcMask
  rw [foldl_or_const _ _ _ (pyLastSlice_ne_nil verts hl hne), Nat.zero_or]

/-- Whatever index `maskedChoose` returns is drawn from `verts_avail`. -/
theorem maskedChoose_mem (N exc d w : ℕ) (h : maskedChoose N exc d = some w) :
    w ∈ availList N exc := by
  unfold maskedChoose randint0 at h
  by_cases hlen : ((availList N exc).length : ℤ) - 1 < 0
  · rw [if_pos hlen] at h
    exact absurd h (by simp)
  · rw [if_neg hlen] at h
    simp only [Option.bind_some, Option.some_bind] at h
    exact List.get?_mem h

/-- When `verts_avail` is non-empty, `maskedChoose` succeeds and its result
is one of the available vertices. -/
theorem maskedChoose_isSome (N exc d : ℕ) (h : availList N exc ≠ []) :
    ∃ w, maskedChoose N exc d = some w ∧ w ∈ availList N exc := by
  have hpos : 0 < (availList N exc).length := List.length_pos.2 h
  unfold maskedChoose randint0
  have hlen : ¬ (((availList N exc).length : ℤ) - 1 < 0) := by
    omega
  rw [if_neg hlen]
  have htn : (((availList N exc).length : ℤ) - 1).toNat + 1 = (availList N exc).length := by
    omega
  rw [htn]
  have hj : d % (availList N exc).length < (availList N exc).length := Nat.mod_lt d hpos
  refine ⟨(availList N exc).get ⟨d % (availList N exc).length, hj⟩, ?_, List.get_mem _ _ _⟩
  simp [List.get?_eq_get hj]

/-- Membership in `verts_avail` unpacked: in range and not masked. -/
theorem availList_mem (N exc w : ℕ) (h : w ∈ availList N exc) :
    w < N ∧ exc &&& (1 <<< w) = 0 := by
  unfold availList at h
  rw [List.mem_filter, List.mem_range] at h
  exact ⟨h.1, by simpa using h.2⟩

/-- C10: in `ChaosGameHistExc.choose_vertex` every loop iteration rotates
the exclusion mask by the same most-recent entry `verts[-1]`, so for any
`hist_len ≥ 1` and non-empty history the combined mask equals the single
rotation `lcyc N excluded verts[-1]`, and the `hist_len = k` selector is
extensionally equal to the `hist_len = 1` selector. -/
theorem c10_hist_len_irrelevant (N excl hl : ℕ) (verts : List ℕ) (d : ℕ)
    (hhl : 1 ≤ hl) (hne : verts ≠ []) :
    histExcMask N excl hl verts = lcyc N excl (verts.getLastD 0) ∧
    histExcChooseVertex N excl hl verts d = histExcChooseVertex N excl 1 verts d := by
  refine ⟨histExcMask_eq N excl hl verts hne, ?_⟩
  unfold histExcChooseVertex
  rw [histExcMask_eq N excl hl verts hne, histExcMask_eq N excl 1 verts hne]

/-- C10 (witness): `hist_len = 3` and `hist_len = 1` agree on the history
`[0, 0, 2]` with mask 1 over 6 targets. -/
theorem c10_hist_len_irrelevant_witness :
    histExcMask 6 1 3 [0, 0, 2] = lcyc 6 1 ([0, 0, 2].getLastD 0) ∧
    histExcChooseVertex 6 1 3 [0, 0, 2] 4 = histExcChooseVertex 6 1 1 [0, 0, 2] 4 :=
  c10_hist_len_irrelevant 6 1 3 [0, 0, 2] 4 (by decide) (by decide)

/-- C4 (counterexample): with `excluded = [0,1,2,3,4,5]` over 6 targets the
rotated mask forbids every vertex, yet session construction succeeds (no
configuration-time error exists) and the selector then crashes at selection
time (`randint(0, -1)` raises `ValueError`, modelled `none`). -/
theorem c4_all_forbidden_counterexample :
    (mkChaosGame "rough" 6 [tEx] cornersEx vtxEx
        (.histExc (exclusionMask [0, 1, 2, 3, 4, 5]) 1)).isSome = true ∧
    histExcChooseVertex 6 (exclusionMask [0, 1, 2, 3, 4, 5]) 1 [0, 0, 0] 0 = none := by
  exact ⟨rfl, by decide⟩

/-- C4 (amended): no configuration-time check exists; when the combined mask
forbids every vertex the selector crashes at selection time. What does hold:
whenever at least one vertex remains available after masking, each
history-aware selector returns one of the available vertices (and the
unconstrained branch of `ChaosGameHistExc2` returns some vertex below
`num_targets`). -/
theorem c4_selection_amended (N excl hl : ℕ) (verts : List ℕ) (d : ℕ) :
    (availList N (histExcMask N excl hl verts) ≠ [] →
      ∃ w, histExcChooseVertex N excl hl verts d = some w ∧
        w ∈ availList N (histExcMask N excl hl verts)) ∧
    (pyIdxNeg verts 1 = pyIdxNeg verts 2 →
      availList N (lcyc N excl (verts.getLastD 0)) ≠ [] →
      ∃ w, histExc2ChooseVertex N excl verts d = some w ∧
        w ∈ availList N (lcyc N excl (verts.getLastD 0))) ∧
    (pyIdxNeg verts 1 ≠ pyIdxNeg verts 2 → 1 ≤ N →
      ∃ w, histExc2ChooseVertex N excl verts d = some w ∧ w < N) := by
  refine ⟨?_, ?_, ?_⟩
  · intro h
    exact maskedChoose_isSome N _ d h
  · intro heq h
    unfold histExc2ChooseVertex
    rw [if_pos heq]
    exact maskedChoose_isSome N _ d h
  · intro hne hN
    unfold histExc2ChooseVertex
    rw [if_neg hne]
    unfold randint0
    have hlt : ¬ ((N : ℤ) - 1 < 0) := by omega
    rw [if_neg hlt]
    have htn : ((N : ℤ) - 1).toNat + 1 = N := by omega
    rw [htn]
    exact ⟨d % N, rfl, Nat.mod_lt d (by omega)⟩

/-- Over a 6-bit field, rotating the single-offset mask `1` by `v < 6`
yields the single absolute bit `2^v`. -/
theorem lcyc_one_bit : ∀ v < 6, lcyc 6 1 v = 2 ^ v := by decide

/-- Distinct single bits below 6 do not overlap. -/
theorem two_pow_and_ne : ∀ v < 6, ∀ w < 6, w ≠ v → 2 ^ v &&& (1 <<< w) = 0 := by decide

/-- For every forbidden bit `v < 6` and every non-forbidden target `w < 6`
some draw below 6 makes `maskedChoose` return `w`. -/
theorem maskedChoose_hits :
    ∀ v < 6, ∀ w < 6, w ≠ v →
      ((List.range 6).any fun d2 => maskedChoose 6 (2 ^ v) d2 == some w) = true := by
  decide

/-- C8: with `excluded = [0]`, `hist_len = 1` and `num_targets = 6`, when
vertex `v` is the most recent history entry the combined forbidden mask has
exactly bit `v` set; the selector never returns `v`, and every other index
in `[0, 6)` is returned under some draw. -/
theorem c8_single_exclusion (verts : List ℕ) (v d : ℕ) (hv : v < 6)
    (hne : verts ≠ []) (hlast : verts.getLastD 0 = v) :
    histExcMask 6 (exclusionMask [0]) 1 verts = 2 ^ v ∧
    (∀ w, histExcChooseVertex 6 (exclusionMask [0]) 1 verts d = some w → w < 6 ∧ w ≠ v) ∧
    (∀ w, w < 6 → w ≠ v →
      ∃ d2, histExcChooseVertex 6 (exclusionMask [0]) 1 verts d2 = some w) := by
  have hmask1 : exclusionMask [0] = 1 := rfl
  have hmask : histExcMask 6 (exclusionMask [0]) 1 verts = 2 ^ v := by
    rw [histExcMask_eq 6 (exclusionMask [0]) 1 verts hne, hlast, hmask1, lcyc_one_bit v hv]
  refine ⟨hmask, ?_, ?_⟩
  · intro w hw
    unfold histExcChooseVertex at hw
    rw [hmask] at hw
    obtain ⟨hwN, hbit⟩ := availList_mem 6 (2 ^ v) w (maskedChoose_mem 6 (2 ^ v) d w hw)
    refine ⟨hwN, ?_⟩
    intro hcon
    subst hcon
    rw [Nat.one_shiftLeft, Nat.and_self] at hbit
    exact absurd hbit (Nat.two_pow_pos w).ne'
  · intro w hwN hwv
    obtain ⟨d2, _, hd2⟩ := List.any_eq_true.1 (maskedChoose_hits v hv w hwN hwv)
    refine ⟨d2, ?_⟩
    unfold histExcChooseVertex
    rw [hmask]
    exact beq_iff_eq.1 hd2

/-- C8 (witness): the scenario of the spec, history ending in vertex 2. -/
theorem c8_single_exclusion_witness :
    histExcMask 6 (exclusionMask [0]) 1 [0, 0, 2] = 2 ^ 2 ∧
    (∀ w, histExcChooseVertex 6 (exclusionMask [0]) 1 [0, 0, 2] 0 = some w → w < 6 ∧ w ≠ 2) ∧
    (∀ w, w < 6 → w ≠ 2 →
      ∃ d2, histExcChooseVertex 6 (exclusionMask [0]) 1 [0, 0, 2] d2 = some w) :=
  c8_single_exclusion [0, 0, 2] 2 0 (by decide) (by decide) (by decide)

/-- C4 (witness): history ending in vertex 2, mask 1 rotated — four vertices
remain available and one of them is selected. -/
theorem c4_selection_witness :
    ∃ w, histExcChooseVertex 6 (exclusionMask [0]) 1 [0, 0, 2] 0 = some w ∧
      w ∈ availList 6 (histExcMask 6 (exclusionMask [0]) 1 [0, 0, 2]) :=
  (c4_selection_amended 6 (exclusionMask [0]) 1 [0, 0, 2] 0).1 (by decide)

/-- A successful step appends exactly one point to `self.points`. -/
theorem step_points_append (cfg : Config) (st : GameState) (dv : ℕ) (dt : ℚ)
    (st' : GameState) (h : step cfg st dv dt = some st') :
    ∃ p, st'.points = st.points ++ [p] := by
  unfold step at h
  rcases h1 : chooseVertexOf cfg.variant cfg.num_targets st.verts dv with _ | v
  · rw [h1] at h; exact absurd h (by simp)
  · rw [h1] at h
    simp only [Option.some_bind] at h
    rcases h2 : cfg.vertices.get? v with _ | vert
    · rw [h2] at h; exact absurd h (by simp)
    · rw [h2] at h
      simp only [Option.some_bind] at h
      rcases h3 : chooseTransformOf cfg.variant cfg.transformations vert dt with _ | t
      · rw [h3] at h; exact absurd h (by simp)
      · rw [h3] at h
        simp only [Option.map_some', Option.some.injEq] at h
        exact ⟨_, by rw [← h]⟩

/-- Across a run of steps the point list only grows at the tail: its length
increases by the number of steps, its head is unchanged, and it stays
non-empty. -/
theorem runSteps_points (cfg : Config) :
    ∀ (n : ℕ) (st : GameState) (ds : List (ℕ × ℚ)) (st' : GameState)
      (rest : List (ℕ × ℚ)),
      runSteps cfg n st ds = some (st', rest) → st.points ≠ [] →
      st'.points.length = st.points.length + n ∧
      st'.points.head? = st.points.head? ∧ st'.points ≠ [] := by
  intro n
  induction n with
  | zero =>
    intro st ds st' rest h hne
    unfold runSteps at h
    simp only [Option.some.injEq, Prod.mk.injEq] at h
    rw [← h.1]
    exact ⟨rfl, rfl, hne⟩
  | succ m ih =>
    intro st ds st' rest h hne
    cases ds with
    | nil => exact absurd h (by simp [runSteps])
    | cons dp ds2 =>
      obtain ⟨dv, dt⟩ := dp
      unfold runSteps at h
      rcases hs : step cfg st dv dt with _ | st1
      · rw [hs] at h; exact absurd h (by simp)
      · rw [hs] at h
        obtain ⟨p, hp⟩ := step_points_append cfg st dv dt st1 hs
        obtain ⟨a, l, hal⟩ := List.exists_cons_of_ne_nil hne
        have hne1 : st1.points ≠ [] := by rw [hp]; simp
        obtain ⟨hl, hh, hne2⟩ := ih st1 ds2 st' rest h hne1
        refine ⟨?_, ?_, hne2⟩
        · rw [hl, hp, List.length_append]
          simp only [List.length_cons, List.length_nil]
          omega
        · rw [hh, hp, hal, List.cons_append]
          rfl

/-- Slice `self.points[-1:]` of a non-empty point list is the one-element list
holding its last point. -/
theorem pyLastSlice_singleton {α : Type} (l : List α) (h : l ≠ []) :
    ∃ a, pyLastSlice l 1 = [a] ∧ l.getLast? = some a := by
  induction l with
  | nil => exact absurd rfl h
  | cons b t ih =>
    cases t with
    | nil => exact ⟨b, by simp [pyLastSlice], rfl⟩
    | cons c t2 =>
      obtain ⟨a, h1, h2⟩ := ih (by simp)
      refine ⟨a, ?_, ?_⟩
      · unfold pyLastSlice at h1 ⊢
        simp only [if_neg (by norm_num : (1 : ℕ) ≠ 0)] at h1 ⊢
        simp only [List.length_cons] at h1 ⊢
        rw [show t2.length + 1 + 1 - 1 = t2.length + 1 from by omega,
          List.drop_succ_cons]
        rw [show t2.length + 1 - 1 = t2.length from by omega] at h1
        exact h1
      · rw [List.getLast?_cons_cons]
        exact h2

/-- C1 (counterexample): on the same session with the same draw order, two
`generate_points(1)` calls leave the session holding 2 points while a single
`generate_points(2)` leaves 3 — the batches do not append to one accumulated
sequence, because each call truncates `self.points` to `self.points[-1:]`
and clears `self.colors`. -/
theorem c1_batches_do_not_accumulate :
    (genTwice cfgC1 ⟨[(0, 0)], [], []⟩ 1 1 [(0, 0), (0, 0)]).map
        (fun s => s.points.length) = some 2 ∧
    (generate_points cfgC1 ⟨[(0, 0)], [], []⟩ 2 [(0, 0), (0, 0)]).map
        (fun r => r.1.points.length) = some 3 := ⟨rfl, rfl⟩

/-- C1 (amended): `generate_points` does NOT append to previously accumulated
sequences. Each call first truncates `self.points` to its last element,
clears `self.colors`, and resets the selection history `self.verts` to
`[0, 0, 0]`; only the last point carries over between batches. After a
successful `generate_points(n)` the session holds exactly `n + 1` points —
the carried last point followed by the `n` new ones — with `n + 1` freshly
recomputed colors, and the outcome is independent of the pre-call colors and
selection history (so history-aware selectors are perturbed by batching). -/
theorem c1_generate_points_resets (cfg : Config) (st : GameState) (n : ℕ)
    (ds : List (ℕ × ℚ)) (st' : GameState) (rest : List (ℕ × ℚ))
    (h : generate_points cfg st n ds = some (st', rest)) (hne : st.points ≠ []) :
    st'.points.length = n + 1 ∧
    st'.points.head? = st.points.getLast? ∧
    st'.colors.length = n + 1 ∧
    (∀ (cs : List (Fin 3 → ℚ)) (vs : List ℕ),
      generate_points cfg ⟨st.points, cs, vs⟩ n ds = some (st', rest)) := by
  have h0 : ∀ (cs : List (Fin 3 → ℚ)) (vs : List ℕ),
      generate_points cfg ⟨st.points, cs, vs⟩ n ds = some (st', rest) := fun _ _ => h
  obtain ⟨a, hsl, hlast⟩ := pyLastSlice_singleton st.points hne
  unfold generate_points at h
  rcases hr : runSteps cfg n ⟨pyLastSlice st.points 1, [], [0, 0, 0]⟩ ds with _ | p1
  · rw [hr] at h; exact absurd h (by simp)
  · obtain ⟨st1, rest1⟩ := p1
    rw [hr] at h
    simp only [Option.some.injEq, Prod.mk.injEq] at h
    obtain ⟨h1, h2⟩ := h
    have hne0 : (⟨pyLastSlice st.points 1, [], [0, 0, 0]⟩ : GameState).points ≠ [] := by
      show pyLastSlice st.points 1 ≠ []
      rw [hsl]
      simp
    obtain ⟨hL, hH, _⟩ :=
      runSteps_points cfg n ⟨pyLastSlice st.points 1, [], [0, 0, 0]⟩ ds st1 rest1 hr hne0
    have hL2 : st1.points.length = 1 + n := by
      rw [hL]
      show (pyLastSlice st.points 1).length + n = 1 + n
      rw [hsl]
      simp
    have hH2 : st1.points.head? = some a := by
      rw [hH]
      show (pyLastSlice st.points 1).head? = some a
      rw [hsl]
      rfl
    have hpts : st'.points = st1.points := by rw [← h1]
    have hcol : st'.colors = st1.points.map (colorOf cfg.coloring) := by rw [← h1]
    refine ⟨?_, ?_, ?_, h0⟩
    · rw [hpts]; omega
    · rw [hpts, hH2, hlast]
    · rw [hcol, List.length_map]; omega

/-- The session state after one `generate_points(1)` on the C1
configuration. -/
def c1State : GameState :=
  ((generate_points cfgC1 ⟨[(0, 0)], [], []⟩ 1 [(0, 0)]).getD (⟨[], [], []⟩, [])).1

/-- C1 (witness): the amended theorem at a concrete one-step batch. -/
theorem c1_generate_points_resets_witness :
    c1State.points.length = 1 + 1 ∧
    c1State.points.head? = ([((0 : ℚ), (0 : ℚ))] : List (ℚ × ℚ)).getLast? ∧
    c1State.colors.length = 1 + 1 ∧
    (∀ (cs : List (Fin 3 → ℚ)) (vs : List ℕ),
      generate_points cfgC1 ⟨[(0, 0)], cs, vs⟩ 1 [(0, 0)] = some (c1State, [])) :=
  c1_generate_points_resets cfgC1 ⟨[(0, 0)], [], []⟩ 1 [(0, 0)] c1State [] rfl
    (by simp)

/-- Closed form of `Transformation.transform`: the result is
`p1 + scale · R(rotation) · (p2 − p1)`, the contraction of `p2` toward the
anchor `p1` — the anchor is the FIRST argument. -/
theorem transform_eq (t : Transformation) (p1 p2 : ℚ × ℚ) :
    t.transform p1 p2 =
      (p1.1 + t.scale * ((p2.1 - p1.1) * t.rotCos - (p2.2 - p1.2) * t.rotSin),
       p1.2 + t.scale * ((p2.1 - p1.1) * t.rotSin + (p2.2 - p1.2) * t.rotCos)) := by
  unfold Transformation.transform
  dsimp only
  simp only [Prod.mk.injEq]
  constructor <;> ring

/-- The base-class configuration of the C6 counterexample: one vertex at
`(1, 0)` and a single transform with `scale = 1/4`, `rotation = 0`. -/
def cfgC6 : Config := ⟨.base, 1, [⟨1 / 4, 1, 0, 1⟩], cornersEx, [(1, 0)]⟩

/-- C6 (counterexample): with `scale = 1/4`, `rotation = 0`, chosen vertex
`(1, 0)` and last point `(0, 0)`, the generation step produces `(1/4, 0)` —
the vertex contracted toward the last point — whereas the formula of the claim
`vertices[v] + scale·R(rotation)·(last_point − vertices[v])` evaluates to
`(3/4, 0)` at this input. -/
theorem c6_anchor_swapped_counterexample :
    (step cfgC6 ⟨[(0, 0)], [], [0, 0, 0]⟩ 0 0).map
        (fun s => s.points.getLastD (0, 0)) = some (1 / 4, 0) ∧
    ((1 / 4 : ℚ), (0 : ℚ)) ≠
      (1 + (1 / 4 : ℚ) * ((0 - 1) * 1 - (0 - 0) * 0),
       0 + (1 / 4 : ℚ) * ((0 - 1) * 0 + (0 - 0) * 1)) := by
  constructor
  · have hstep : step cfgC6 ⟨[(0, 0)], [], [0, 0, 0]⟩ 0 0 =
        some ⟨[(0, 0), Transformation.transform ⟨1 / 4, 1, 0, 1⟩ (0, 0) (1, 0)],
          [], [0, 0, 0]⟩ := rfl
    rw [hstep, Option.map_some']
    show some (([(0, 0), Transformation.transform ⟨1 / 4, 1, 0, 1⟩ (0, 0) (1, 0)] :
        List (ℚ × ℚ)).getLastD (0, 0)) = some (1 / 4, 0)
    rw [show (([(0, 0), Transformation.transform ⟨1 / 4, 1, 0, 1⟩ (0, 0) (1, 0)] :
        List (ℚ × ℚ)).getLastD (0, 0)) = Transformation.transform ⟨1 / 4, 1, 0, 1⟩ (0, 0) (1, 0)
      from rfl, transform_eq]
    simp only [Option.some.injEq, Prod.mk.injEq]
    norm_num
  · norm_num

/-- C6 (amended): on every successful generation step with chosen vertex `v`
the new point is `last_point + scale · R(rotation) · (vertices[v] − last_point)`:
the code calls `trans.transform(self.points[-1], last_vert)` (line 84), so
the anchor of the contraction is the PREVIOUS POINT and the moving point is
the chosen vertex — the converse of the roles the claim assigns. For
`scale = 1/2`, `rotation = 0` the two coincide at the midpoint, which is why
the concrete scenario of the claim still holds: `transform` with `p1 = (1, 0)`,
`p2 = (0, 0)` yields `(1/2, 0)`. -/
theorem c6_step_contraction_amended (cfg : Config) (st : GameState) (dv : ℕ) (dt : ℚ)
    (st' : GameState) (h : step cfg st dv dt = some st') :
    (∃ v vert t,
      chooseVertexOf cfg.variant cfg.num_targets st.verts dv = some v ∧
      cfg.vertices.get? v = some vert ∧
      chooseTransformOf cfg.variant cfg.transformations vert dt = some t ∧
      st'.points = st.points ++
        [((st.points.getLastD (0, 0)).1 +
            t.scale * ((vert.1 - (st.points.getLastD (0, 0)).1) * t.rotCos -
              (vert.2 - (st.points.getLastD (0, 0)).2) * t.rotSin),
          (st.points.getLastD (0, 0)).2 +
            t.scale * ((vert.1 - (st.points.getLastD (0, 0)).1) * t.rotSin +
              (vert.2 - (st.points.getLastD (0, 0)).2) * t.rotCos))]) ∧
    tEx.transform (1, 0) (0, 0) = (1 / 2, 0) := by
  constructor
  · unfold step at h
    rcases h1 : chooseVertexOf cfg.variant cfg.num_targets st.verts dv with _ | v
    · rw [h1] at h; exact absurd h (by simp)
    · rw [h1] at h
      simp only [Option.some_bind] at h
      rcases h2 : cfg.vertices.get? v with _ | vert
      · rw [h2] at h; exact absurd h (by simp)
      · rw [h2] at h
        simp only [Option.some_bind] at h
        rcases h3 : chooseTransformOf cfg.variant cfg.transformations vert dt with _ | t
        · rw [h3] at h; exact absurd h (by simp)
        · rw [h3] at h
          simp only [Option.map_some', Option.some.injEq] at h
          refine ⟨v, vert, t, rfl, h2, h3, ?_⟩
          rw [← h]
          show st.points ++ [t.transform (st.points.getLastD (0, 0)) vert] = _
          rw [transform_eq]
  · rw [transform_eq]
    norm_num [tEx]

/-- The session state after one step on the C6 configuration. -/
def c6State : GameState := (step cfgC6 ⟨[(0, 0)], [], [0, 0, 0]⟩ 0 0).getD ⟨[], [], []⟩

/-- C6 (witness): the amended theorem at the concrete C6 step. -/
theorem c6_step_contraction_witness :
    (∃ v vert t,
      chooseVertexOf cfgC6.variant cfgC6.num_targets [0, 0, 0] 0 = some v ∧
      cfgC6.vertices.get? v = some vert ∧
      chooseTransformOf cfgC6.variant cfgC6.transformations vert 0 = some t ∧
      c6State.points = [((0 : ℚ), (0 : ℚ))] ++
        [((([((0 : ℚ), (0 : ℚ))] : List (ℚ × ℚ)).getLastD (0, 0)).1 +
            t.scale * ((vert.1 - (([((0 : ℚ), (0 : ℚ))] : List (ℚ × ℚ)).getLastD (0, 0)).1) * t.rotCos -
              (vert.2 - (([((0 : ℚ), (0 : ℚ))] : List (ℚ × ℚ)).getLastD (0, 0)).2) * t.rotSin),
          (([((0 : ℚ), (0 : ℚ))] : List (ℚ × ℚ)).getLastD (0, 0)).2 +
            t.scale * ((vert.1 - (([((0 : ℚ), (0 : ℚ))] : List (ℚ × ℚ)).getLastD (0, 0)).1) * t.rotSin +
              (vert.2 - (([((0 : ℚ), (0 : ℚ))] : List (ℚ × ℚ)).getLastD (0, 0)).2) * t.rotCos))]) ∧
    tEx.transform (1, 0) (0, 0) = (1 / 2, 0) :=
  c6_step_contraction_amended cfgC6 ⟨[(0, 0)], [], [0, 0, 0]⟩ 0 0 c6State rfl
